import Mathlib

/-!
Shallow embedding of the subtitle-processor sources (src/lib/formatter.ts and
src/lib/subtitles.ts).

Modelling conventions:
- a JS string is a Lean `String` (a packed `List Char`); the scanners below
  work on `String.data`;
- a nullable string (`string | null`) is an `Option String`;
- a thrown exception is an `Option`/`Except` result (`none` / `.error`);
- a JS object used as a dictionary is an association list in key insertion
  order (the keys used here are names, never integer-like, so `Object.keys`
  returns them in insertion order);
- each regex rewrite of the source is translated into an explicit character
  scanner with the same leftmost, greedy match semantics.  A few scanners
  take a fuel argument so that they are structurally recursive; the fuel is
  always instantiated with the length of the scanned list plus one, which
  suffices because every step consumes at least one character.
-/

/-- JS `\s` restricted to the ASCII whitespace characters. -/
def isWsChar (c : Char) : Bool :=
  c == ' ' || c == '\t' || c == '\n' || c == '\r' || c == '\x0b' || c == '\x0c'

/-- JS `[A-Z]`. -/
def isUpperAZ (c : Char) : Bool :=
  'A' ≤ c && c ≤ 'Z'

/-- JS `["“”]`: a straight or curly double quote. -/
def isQuoteChar (c : Char) : Bool :=
  c == '"' || c == '“' || c == '”'

/-- Remove a trailing whitespace run, as `replace(/\s+$/, "")` / `replace(/\s*$/, "")` do. -/
def trimTrailWsL (l : List Char) : List Char :=
  (l.reverse.dropWhile isWsChar).reverse

/-- Remove a leading whitespace run, as `replace(/^\s*/, "")` does. -/
def trimLeadWsL (l : List Char) : List Char :=
  l.dropWhile isWsChar

/-- Whether `sub` occurs as a contiguous substring, as `/sub/.test(s)` does for a literal pattern. -/
def hasSubstr (sub : List Char) : List Char → Bool
  | [] => sub.isEmpty
  | c :: rest => sub.isPrefixOf (c :: rest) || hasSubstr sub rest

/-- `String.prototype.replace` with a literal pattern and no `g` flag: replace
the first occurrence of `needle` only.  An empty needle matches at position 0. -/
def replaceFirstL (needle repl : List Char) : List Char → List Char
  | [] => if needle.isEmpty then repl else []
  | c :: rest =>
    if needle.isPrefixOf (c :: rest) then repl ++ (c :: rest).drop needle.length
    else c :: replaceFirstL needle repl rest

/-- `String.prototype.replace` with a literal pattern and the `g` flag:
replace every non-overlapping occurrence, left to right.  When the needle is
empty the replacement is inserted at every position, as `new RegExp("", "g")`
does.  Fuel makes the recursion structural; it decreases by one while each
step consumes at least one character. -/
def replaceAllAux (needle repl : List Char) : Nat → List Char → List Char
  | 0, l => l
  | _ + 1, [] => if needle.isEmpty then repl else []
  | fuel + 1, c :: rest =>
    if needle.isPrefixOf (c :: rest) then
      if needle.isEmpty then repl ++ c :: replaceAllAux needle repl fuel rest
      else repl ++ replaceAllAux needle repl fuel ((c :: rest).drop needle.length)
    else c :: replaceAllAux needle repl fuel rest

/-- String-level wrapper of `replaceAllAux` with sufficient fuel. -/
def replaceAllStr (s needle repl : String) : String :=
  ⟨replaceAllAux needle.data repl.data (s.data.length + 1) s.data⟩

/-- `String.prototype.split` with a single-character class pattern
(`split("\n")`, `split(" ")`, `split(/[·\/]/)`): every separator occurrence
produces a boundary, and empty pieces are kept. -/
def splitBy (p : Char → Bool) : List Char → List (List Char)
  | [] => [[]]
  | c :: rest =>
    if p c then [] :: splitBy p rest
    else
      match splitBy p rest with
      | g :: gs => (c :: g) :: gs
      | [] => [[c]]

/-- `Array.prototype.join(sep)`. -/
def joinSep (sep : String) : List String → String
  | [] => ""
  | [s] => s
  | s :: rest => s ++ sep ++ joinSep sep rest

/-- `split("\n")` on a string. -/
def splitNlStr (s : String) : List String :=
  (splitBy (fun c => c == '\n') s.data).map (fun l => (⟨l⟩ : String))

/-- `Array.prototype.forEach((element, index) => ...)` used to rebuild a list:
map with the element index, starting at `n`. -/
def mapWithIndex {α β : Type} (f : Nat → α → β) : Nat → List α → List β
  | _, [] => []
  | n, a :: as => f n a :: mapWithIndex f (n + 1) as

namespace formatter

/-- Association-list model of the TS `INameDict` object (key insertion order). -/
abbrev INameDict := List (String × String)

/-- The TS `IOrganizedNameDict`. -/
structure IOrganizedNameDict where
  fullNames : INameDict
  partialNames : INameDict

def NAME_DELIMITER : String := "·"

def EOL : String := "\r\n"

/-- Object property read `d[k]` for a key known to be present. -/
def dictGet (d : INameDict) (k : String) : String :=
  (d.lookup k).getD ""

/-- Object property write `d[k] = v`: an existing key keeps its position and
gets the new value, a new key is appended. -/
def dictSet (d : INameDict) (k v : String) : INameDict :=
  if d.any (fun p => p.1 == k) then d.map (fun p => if p.1 == k then (k, v) else p)
  else d ++ [(k, v)]

/-- `formatDialogIfIsDialog` (formatter.ts): recognize
`/^\s*-\s*([^\s-][^-]*)\s*-?\s*(.+)?$/` and reformat the dialog line.  The
first capture group is greedy, so it runs to the first dash after it or to the
end of the line; `.` does not match a newline, so when the second part would
contain one the regex fails and the line is returned unchanged. -/
def formatDialogIfIsDialog (line : String) : String :=
  if line = "" then line
  else
    match line.data.dropWhile isWsChar with
    | '-' :: r =>
      match r.dropWhile isWsChar with
      | [] => line
      | c0 :: rest =>
        if c0 == '-' then line
        else
          let g1 := c0 :: rest.takeWhile (fun c => c != '-')
          match rest.dropWhile (fun c => c != '-') with
          | [] => ⟨trimTrailWsL g1⟩
          | _ :: r2 =>
            let r3 := r2.dropWhile isWsChar
            if r3.isEmpty then ⟨trimTrailWsL g1⟩
            else if r3.any (fun c => c == '\n' || c == '\r') then line
            else ⟨"- ".data ++ trimTrailWsL g1 ++ "  - ".data ++ trimTrailWsL r3⟩
    | _ => line

/-- `formatLyricsIfIsLyrics` (formatter.ts): recognize
`/^\s*#\s*([^\s#][^#]*)\s*#?\s*$/` and reformat the lyrics line.  The capture
group runs to the second pound sign or the end; because the pattern is
anchored at the end, anything other than whitespace after a closing pound
makes the match fail and the line is returned unchanged. -/
def formatLyricsIfIsLyrics (line : String) : String :=
  if line = "" then line
  else
    match line.data.dropWhile isWsChar with
    | '#' :: r =>
      match r.dropWhile isWsChar with
      | [] => line
      | c0 :: rest =>
        if c0 == '#' then line
        else
          let g1 := c0 :: rest.takeWhile (fun c => c != '#')
          match rest.dropWhile (fun c => c != '#') with
          | [] => ⟨"# ".data ++ trimTrailWsL g1 ++ " #".data⟩
          | _ :: r2 =>
            if r2.all isWsChar then ⟨"# ".data ++ trimTrailWsL g1 ++ " #".data⟩
            else line
    | _ => line

/-- `replace(/(^|-\s*)\.\.\./g, "$1")`: delete an ellipsis at the start of the
line or right after a dash (with intervening whitespace, which is kept). -/
def delLeadEllipsisGo : Nat → List Char → List Char
  | 0, l => l
  | _ + 1, [] => []
  | fuel + 1, '-' :: rest =>
    let ws := rest.takeWhile isWsChar
    let r2 := rest.drop ws.length
    if "...".data.isPrefixOf r2 then '-' :: ws ++ delLeadEllipsisGo fuel (r2.drop 3)
    else '-' :: delLeadEllipsisGo fuel rest
  | fuel + 1, c :: rest => c :: delLeadEllipsisGo fuel rest

/-- Wrapper of `delLeadEllipsisGo` handling the `^` alternative. -/
def delLeadEllipsis (l : List Char) : List Char :=
  if "...".data.isPrefixOf l then delLeadEllipsisGo (l.length + 1) (l.drop 3)
  else delLeadEllipsisGo (l.length + 1) l

/-- Generic scanner for the `replace(/\s*MID\s*/g, out)` rewrites of
`formatPunctuations`.  `mid` tries the middle pattern at the current position
and returns the replacement text and the remainder; the surrounding
whitespace runs are consumed greedily.  When no match starts inside a
whitespace run the whole run is emitted, which is exactly what the regex scan
does because the middle pattern cannot begin with whitespace. -/
def wsWrapReplace (mid : List Char → Option (List Char × List Char)) :
    Nat → List Char → List Char
  | 0, l => l
  | _ + 1, [] => []
  | fuel + 1, c :: rest =>
    let l := c :: rest
    let ws := l.takeWhile isWsChar
    let r2 := l.drop ws.length
    match mid r2 with
    | some (out, r3) => out ++ wsWrapReplace mid fuel (r3.drop (r3.takeWhile isWsChar).length)
    | none =>
      if ws.isEmpty then c :: wsWrapReplace mid fuel rest
      else ws ++ wsWrapReplace mid fuel r2

/-- Middle pattern `\.\.\.` with replacement `&&& ` (the ellipsis placeholder). -/
def midDots (l : List Char) : Option (List Char × List Char) :=
  match l with
  | '.' :: '.' :: '.' :: rest => some ("&&& ".data, rest)
  | _ => none

/-- Middle pattern `[？?]` with replacement `? `. -/
def midQuestion (l : List Char) : Option (List Char × List Char) :=
  match l with
  | c :: rest => if c == '?' || c == '？' then some ("? ".data, rest) else none
  | [] => none

/-- Middle pattern `[！!]` with replacement `! `. -/
def midBang (l : List Char) : Option (List Char × List Char) :=
  match l with
  | c :: rest => if c == '!' || c == '！' then some ("! ".data, rest) else none
  | [] => none

/-- Middle pattern `([,.])` with replacement `$1 `. -/
def midCommaPeriod (l : List Char) : Option (List Char × List Char) :=
  match l with
  | c :: rest => if c == ',' || c == '.' then some ([c, ' '], rest) else none
  | [] => none

/-- One greedy match of `([A-Z]\.\s*)+` starting exactly at the given
position: an uppercase letter, a period and a greedy whitespace run, repeated
as often as possible.  Returns the matched text (trailing whitespace of the
last repetition included) and the remainder. -/
def abbrevAtGo : Nat → List Char → Option (List Char × List Char)
  | 0, _ => none
  | fuel + 1, a :: '.' :: rest =>
    if isUpperAZ a then
      let ws := rest.takeWhile isWsChar
      let r2 := rest.drop ws.length
      match abbrevAtGo fuel r2 with
      | some (m, r3) => some (a :: '.' :: ws ++ m, r3)
      | none => some (a :: '.' :: ws, r2)
    else none
  | _ + 1, _ => none

/-- `line.match(/([A-Z]\.\s*)+/g)`: all matches, scanned left to right, the
scan resuming after each match. -/
def abbrevMatchesGo : Nat → List Char → List (List Char)
  | 0, _ => []
  | _ + 1, [] => []
  | fuel + 1, c :: rest =>
    match abbrevAtGo (rest.length + 1) (c :: rest) with
    | some (m, r2) => m :: abbrevMatchesGo fuel r2
    | none => abbrevMatchesGo fuel rest

/-- List-level wrapper of `abbrevMatchesGo` with sufficient fuel. -/
def abbrevMatches (l : List Char) : List (List Char) :=
  abbrevMatchesGo (l.length + 1) l

/-- `replace(/\.\s*/g, ".")` used on a matched abbreviation: drop the
whitespace run after every period. -/
def collapseDotWsAux : Bool → List Char → List Char
  | _, [] => []
  | skip, c :: rest =>
    if c == '.' then '.' :: collapseDotWsAux true rest
    else if skip && isWsChar c then collapseDotWsAux true rest
    else c :: collapseDotWsAux false rest

/-- Wrapper of `collapseDotWsAux`. -/
def collapseDotWs (l : List Char) : List Char :=
  collapseDotWsAux false l

/-- `replace(/^\s*["“”]\s*/, "\"")`: normalize a leading quote. -/
def fixQuoteStart (l : List Char) : List Char :=
  match l.dropWhile isWsChar with
  | q :: rest => if isQuoteChar q then '"' :: rest.dropWhile isWsChar else l
  | [] => l

/-- `replace(/\s*["“”]\s*$/, "\"")`: normalize a trailing quote. -/
def fixQuoteEnd (l : List Char) : List Char :=
  match l.reverse.dropWhile isWsChar with
  | q :: rest =>
    if isQuoteChar q then (rest.dropWhile isWsChar).reverse ++ ['"'] else l
  | [] => l

/-- `formatPunctuations` (formatter.ts).  The result is `none` when the
function throws: after the general punctuation rules the source evaluates
`line.match(/([A-Z]\.\s*)+/g)` and immediately calls `.forEach` on the result;
when the line contains no uppercase-letter-plus-period sequence, `match`
returns `null` and `null.forEach` raises a TypeError. -/
def formatPunctuations (line : String) : Option String :=
  if line = "" then some line
  else
    let l0 := line.data
    let l1 := delLeadEllipsis l0
    let l2 := wsWrapReplace midDots (l1.length + 1) l1
    let l3 := wsWrapReplace midQuestion (l2.length + 1) l2
    let l4 := wsWrapReplace midBang (l3.length + 1) l3
    let l5 := wsWrapReplace midCommaPeriod (l4.length + 1) l4
    let ms := abbrevMatches l5
    if ms.isEmpty then none
    else
      let l6 := ms.foldl (fun cur m => replaceFirstL m (collapseDotWs m ++ [' ']) cur) l5
      let l7 := fixQuoteEnd (fixQuoteStart l6)
      let l8 := replaceFirstL "&&&".data "...".data l7
      some ⟨l8⟩

/-- `replace(/\[[^\]]]/g, " ")`: the pattern is a bracket, exactly one
character that is not a closing bracket, and a closing bracket, so only
three-character `[x]` sequences are replaced by a space. -/
def rmHearingAids : List Char → List Char
  | '[' :: c :: ']' :: rest =>
    if c == ']' then '[' :: rmHearingAids (c :: ']' :: rest)
    else ' ' :: rmHearingAids rest
  | c :: rest => c :: rmHearingAids rest
  | [] => []

/-- `replace(/<\/?i>/g, " ")`: remove italic markers. -/
def rmItalics : List Char → List Char
  | '<' :: 'i' :: '>' :: rest => ' ' :: rmItalics rest
  | '<' :: '/' :: 'i' :: '>' :: rest => ' ' :: rmItalics rest
  | c :: rest => c :: rmItalics rest
  | [] => []

/-- `replace(/\s+/g, " ")`: collapse every whitespace run to one space.  The
flag records whether the scanner is inside a run already emitted. -/
def collapseWsAux : Bool → List Char → List Char
  | _, [] => []
  | inWs, c :: rest =>
    if isWsChar c then
      if inWs then collapseWsAux true rest
      else ' ' :: collapseWsAux true rest
    else c :: collapseWsAux false rest

/-- Wrapper of `collapseWsAux`. -/
def collapseWsRuns (l : List Char) : List Char :=
  collapseWsAux false l

/-- `ccCleanup` (formatter.ts) on a nullable line: `null` input is returned
as is; a line containing the credit marker yields `null`; otherwise the
bracket, music-sign, italics, whitespace and underscore rewrites run in the
source's order, and an all-whitespace result yields `null`. -/
def ccCleanup (ccLine : Option String) : Option String :=
  match ccLine with
  | none => none
  | some s =>
    if hasSubstr "Synced and corrected by".data s.data then none
    else
      let l1 := rmHearingAids s.data
      let l2 := l1.map (fun c => if c == '♪' then '#' else c)
      let l3 := rmItalics l2
      let l4 := collapseWsRuns l3
      let l5 := trimLeadWsL (trimTrailWsL l4)
      let l6 := if l5 ≠ [] && l5.all (fun c => c == '_') then [] else l5
      if l6.all isWsChar then none else some ⟨l6⟩

/-- `organizeNameDict` (formatter.ts): each raw entry whose target contains a
delimiter glyph goes to `fullNames` with slashes canonicalized to the middle
dot; when the space-separated source tokens and the delimiter-separated target
segments have the same count, each aligned pair is added to the partial-name
table (called `halfNames` in the source). -/
def organizeNameDict (rawNameDict : INameDict) : IOrganizedNameDict :=
  let step := fun (acc : INameDict × INameDict) (entry : String × String) =>
    let halfNames := acc.1
    let fullNames := acc.2
    let eng := entry.1
    let chs := entry.2
    if chs.data.any (fun c => c == '·' || c == '/') then
      let chsSegments := (splitBy (fun c => c == '·' || c == '/') chs.data).map
        (fun l => (⟨l⟩ : String))
      let engSegments := (splitBy (fun c => c == ' ') eng.data).map
        (fun l => (⟨l⟩ : String))
      let halfNames1 :=
        if engSegments.length = chsSegments.length then
          (engSegments.zip chsSegments).foldl (fun h p => dictSet h p.1 p.2) halfNames
        else halfNames
      (halfNames1, dictSet fullNames eng ⟨chs.data.map (fun c => if c == '/' then '·' else c)⟩)
    else acc
  let r := rawNameDict.foldl step ([], [])
  { fullNames := r.2, partialNames := r.1 }

/-- Models `keys.sort((name) => name.length)` from `translateNames`.  The
source passes a one-argument comparator, so `sort` calls it as
`compare(a, b) = a.length`, a nonnegative number for every pair.  Node's
TimSort then sees one entirely ascending run and leaves the array unchanged,
so the call is the identity on the key array (it does not sort by length). -/
def jsSortByNameLength (keys : List String) : List String := keys

/-- `translateNames` (formatter.ts): substitute every full-name key over the
whole text, then every partial-name key, each pass iterating the keys of the
"sorted" array in reverse.  `new RegExp(eng, "g")` is modelled as a
literal global replacement: the keys are names without regex metacharacters. -/
def translateNames (subString : String) (nameDict : IOrganizedNameDict) : String :=
  let fullKeys := (jsSortByNameLength (nameDict.fullNames.map Prod.fst)).reverse
  let s1 := fullKeys.foldl
    (fun s k => replaceAllStr s k (dictGet nameDict.fullNames k)) subString
  let partialKeys := (jsSortByNameLength (nameDict.partialNames.map Prod.fst)).reverse
  partialKeys.foldl
    (fun s k => replaceAllStr s k (dictGet nameDict.partialNames k)) s1

end formatter

/-- The TS `ISubtitleLine`: one subtitle record.  `eng` is the primary
(source-language) text, `chs` the secondary (target-language) text; both are
nullable in the source. -/
structure ISubtitleLine where
  index : String
  timestamp : String
  eng : Option String
  chs : Option String

instance : Inhabited ISubtitleLine := ⟨⟨"", "", none, none⟩⟩

/-- The TS `SubtitleList`: an ordered list of records. -/
structure SubtitleList where
  lines : List ISubtitleLine

/-- JS truthiness of a nullable string: `null` and `""` are falsy. -/
def truthyStr : Option String → Bool
  | none => false
  | some s => s != ""

/-- `replace(/\r\n?/g, "\n")`: normalize line endings. -/
def normalizeEol : List Char → List Char
  | [] => []
  | '\r' :: '\n' :: rest => '\n' :: normalizeEol rest
  | '\r' :: rest => '\n' :: normalizeEol rest
  | c :: rest => c :: normalizeEol rest

/-- `split(/\n *([0-9]+ *\n)/g)`: split at every newline followed by spaces,
digits, spaces and a newline; because the digit run is inside a capture
group, each captured index token is kept between the surrounding pieces, as
JS `split` does with capture groups.  `acc` is the piece accumulated so far.
A failed candidate is flushed whole because no later match can start inside
it (it contains no other newline). -/
def splitIdxGo : Nat → List Char → List Char → List (List Char)
  | 0, acc, l => [acc ++ l]
  | _ + 1, acc, [] => [acc]
  | fuel + 1, acc, '\n' :: rest =>
    let sp := rest.takeWhile (fun c => c == ' ')
    let r2 := rest.drop sp.length
    let dg := r2.takeWhile Char.isDigit
    let r3 := r2.drop dg.length
    let sp2 := r3.takeWhile (fun c => c == ' ')
    let r4 := r3.drop sp2.length
    if dg.isEmpty then splitIdxGo fuel (acc ++ '\n' :: sp) r2
    else if r4.head? == some '\n' then
      acc :: (dg ++ sp2 ++ ['\n']) :: splitIdxGo fuel [] (r4.drop 1)
    else splitIdxGo fuel (acc ++ '\n' :: sp ++ dg ++ sp2) r4
  | fuel + 1, acc, c :: rest => splitIdxGo fuel (acc ++ [c]) rest

/-- Wrapper of `splitIdxGo` with sufficient fuel. -/
def splitIdxList (l : List Char) : List (List Char) :=
  splitIdxGo (l.length + 1) [] l

/-- `/^[0-9]+\s*\n$/.test(token)`: a digit run, then whitespace, ending with a
newline as the last character. -/
def isIndexToken (tok : List Char) : Bool :=
  let dg := tok.takeWhile Char.isDigit
  let r := tok.drop dg.length
  !dg.isEmpty && !r.isEmpty && r.all isWsChar && r.getLast? == some '\n'

/-- `token.replace(/ *\n/g, "\n")`: drop the space run before every newline.
`pend` holds the spaces not yet known to precede a newline. -/
def remSpacesBeforeNlAux : List Char → List Char → List Char
  | pend, [] => pend
  | pend, c :: rest =>
    if c == ' ' then remSpacesBeforeNlAux (pend ++ [c]) rest
    else if c == '\n' then '\n' :: remSpacesBeforeNlAux [] rest
    else pend ++ c :: remSpacesBeforeNlAux [] rest

/-- Wrapper of `remSpacesBeforeNlAux`. -/
def remSpacesBeforeNl (l : List Char) : List Char :=
  remSpacesBeforeNlAux [] l

/-- The `rawList.forEach` loop of `splitSubtitleStringIntoGroups`: an index
token closes the current buffer (trailing whitespace stripped) and starts a
new one; any other token is appended with per-line trailing spaces removed.
As in the source, the final buffer is never pushed. -/
def groupsLoop : List Char → List (List Char) → List (List Char)
  | _, [] => []
  | buffer, tok :: rest =>
    if isIndexToken tok then
      trimTrailWsL buffer :: groupsLoop (tok.filter (fun c => c != ' ')) rest
    else groupsLoop (buffer ++ remSpacesBeforeNl tok) rest

/-- `splitSubtitleStringIntoGroups` (subtitles.ts).  `split` always returns at
least one piece, so the empty-list branch is unreachable. -/
def splitSubtitleStringIntoGroups (subString : String) : List String :=
  match splitIdxList (normalizeEol subString.data) with
  | [] => []
  | buffer0 :: rest => (groupsLoop buffer0 rest).map (fun l => (⟨l⟩ : String))

/-- `constructCcLineWithStringGroup` (subtitles.ts): index and timestamp from
the first two lines, all remaining lines joined with single spaces into the
primary text.  A missing line is modelled as the empty string (the JS
`undefined` of a short `slice` is not observed by any pass). -/
def constructCcLineWithStringGroup (group : String) : ISubtitleLine :=
  let entry := splitNlStr group
  { index := entry.getD 0 "", timestamp := entry.getD 1 "",
    eng := some (joinSep " " (entry.drop 2)), chs := none }

/-- `constructSubtitleLineWithStringGroup` (subtitles.ts): three lines give a
secondary-only record, four lines give primary and secondary, more than four
lines throw the malformed-group error with the raw group text. -/
def constructSubtitleLineWithStringGroup (group : String) :
    Except String ISubtitleLine :=
  let entry := splitNlStr group
  let index := entry.getD 0 ""
  let timestamp := entry.getD 1 ""
  if entry.length = 3 then
    Except.ok { index := index, timestamp := timestamp,
                eng := none, chs := some (entry.getD 2 "") }
  else if entry.length = 4 then
    Except.ok { index := index, timestamp := timestamp,
                eng := some (entry.getD 2 ""), chs := some (entry.getD 3 "") }
  else if entry.length > 4 then
    Except.error ("There are two many lines in group: \"" ++ group ++ "\"")
  else
    Except.ok { index := index, timestamp := timestamp, eng := none, chs := none }

/-- `SubtitleList.fromSubtitles` (subtitles.ts): as in the source, the groups
are mapped through `constructCcLineWithStringGroup` (the caption builder), so
no error can be raised. -/
def SubtitleList.fromSubtitles (subtitleString : String) : SubtitleList :=
  ⟨(splitSubtitleStringIntoGroups subtitleString).map constructCcLineWithStringGroup⟩

/-- `SubtitleList.fromCc` (subtitles.ts): as in the source, the groups are
mapped through `constructSubtitleLineWithStringGroup` (the subtitle-file
builder), whose error propagates. -/
def SubtitleList.fromCc (ccString : String) : Except String SubtitleList :=
  ((splitSubtitleStringIntoGroups ccString).mapM constructSubtitleLineWithStringGroup).map
    (fun ls => (⟨ls⟩ : SubtitleList))

/-- `SubtitleList.cleanUpCcLines` (subtitles.ts): apply `ccCleanup` to every
record's primary text, then filter with the source's test `line != null`,
which inspects the record object itself (never null), not its text, so every
record is kept. -/
def SubtitleList.cleanUpCcLines (sl : SubtitleList) : SubtitleList :=
  let mapped := sl.lines.map (fun l => { l with eng := formatter.ccCleanup l.eng })
  ⟨mapped.filter (fun _ => true)⟩

/-- `reformatLine` (subtitles.ts) on a nullable string.  The outer `Option`
models the exception propagated from `formatPunctuations`; the inner one is
the nullable result (`null` for falsy input). -/
def reformatLine : Option String → Option (Option String)
  | none => some none
  | some s =>
    if s = "" then some none
    else
      let t : String := ⟨trimTrailWsL (trimLeadWsL s.data)⟩
      match formatter.formatPunctuations t with
      | none => none
      | some u =>
        some (some (formatter.formatDialogIfIsDialog (formatter.formatLyricsIfIsLyrics u)))

/-- `SubtitleList.reformat` (subtitles.ts): reformat both texts of every
record, then drop records whose two texts are both falsy.  The whole pass is
`none` when any `reformatLine` call throws. -/
def SubtitleList.reformat (sl : SubtitleList) : Option SubtitleList :=
  match sl.lines.mapM (fun l =>
      match reformatLine l.eng, reformatLine l.chs with
      | some e, some c => some { l with eng := e, chs := c }
      | _, _ => none) with
  | none => none
  | some ls => some ⟨ls.filter (fun l => truthyStr l.chs || truthyStr l.eng)⟩

/-- The `forEach((line, index))` body of `SubtitleList.translateNames`:
reassign the secondary text from the translated segment of the record's
index, storing an empty segment as the absent value.  An out-of-range index
is modelled as the empty segment; it yields the absent value, as the JS
`undefined` does. -/
def translateChsAssign (allChsList : List String) (i : Nat) (l : ISubtitleLine) :
    ISubtitleLine :=
  { l with chs := if allChsList.getD i "" ≠ "" then some (allChsList.getD i "") else none }

/-- `SubtitleList.translateNames` (subtitles.ts): join all secondary texts
with a newline sentinel (absent ones as the empty string), translate the
joined block once, split it back and reassign record by record. -/
def SubtitleList.translateNames (sl : SubtitleList) (rawNameDict : formatter.INameDict) :
    SubtitleList :=
  let allChs := joinSep "\n" (sl.lines.map (fun l => l.chs.getD ""))
  let allChs2 := formatter.translateNames allChs (formatter.organizeNameDict rawNameDict)
  let allChsList := splitNlStr allChs2
  ⟨mapWithIndex (translateChsAssign allChsList) 0 sl.lines⟩

theorem mapWithIndex_length {α β : Type} (f : Nat → α → β) :
    ∀ (n : Nat) (ls : List α), (mapWithIndex f n ls).length = ls.length := by
  intro n ls
  induction ls generalizing n with
  | nil => rfl
  | cons a as ih => simp [mapWithIndex, ih]

theorem mapWithIndex_getD_eq (g : Nat → ISubtitleLine → ISubtitleLine) :
    ∀ (ls : List ISubtitleLine) (n i : Nat),
      (mapWithIndex g n ls).getD i default =
        if i < ls.length then g (n + i) (ls.getD i default) else default := by
  intro ls
  induction ls with
  | nil => intro n i; simp [mapWithIndex]
  | cons a as ih =>
    intro n i
    cases i with
    | zero => simp [mapWithIndex]
    | succ j =>
      simp only [mapWithIndex, List.getD_cons_succ, List.length_cons, Nat.succ_lt_succ_iff]
      rw [ih (n + 1) j]
      have harith : n + 1 + j = n + (j + 1) := by omega
      rw [harith]

/-- C1: within a subtitle-file group of five lines (three content lines),
`SubtitleList.fromSubtitles` does NOT raise the malformed-group error: it
routes the group through the caption builder, which joins the three content
lines into one primary text.  The builder that raises the error quoting the
group verbatim is the one wired to `SubtitleList.fromCc` instead — the two
record builders are swapped relative to the entry points, so the claimed
fatal behaviour of `fromSubtitles`/`loadSubtitles` does not hold on the code. -/
theorem fromSubtitles_long_group_no_error :
    (SubtitleList.fromSubtitles "1\nt\na\nb\nc\n\n2\nt\nx\n").lines =
      [⟨"1", "t", some "a b c", none⟩] ∧
    SubtitleList.fromCc "1\nt\na\nb\nc\n\n2\nt\nx\n" =
      Except.error "There are two many lines in group: \"1\nt\na\nb\nc\"" := by
  exact ⟨rfl, rfl⟩

/-- C2: on a well-formed two-entry subtitle input, the splitter returns only
one group — the final buffer (holding the last entry) is never pushed, so the
number of groups is one less than the number of index lines, contradicting
the claimed equality. -/
theorem split_drops_last_group :
    splitSubtitleStringIntoGroups "1\nt1\na\n\n2\nt2\nb\n" = ["1\nt1\na"] := by
  exact rfl

/-- C3: on input in which no index-line boundary pattern occurs, the splitter
returns the EMPTY list, not a single group wrapping the whole input: the
entire text stays in the initial buffer, which is never pushed. -/
theorem split_headerless_empty :
    splitSubtitleStringIntoGroups "hello world" = [] := by
  exact rfl

/-- C4: `formatPunctuations` is not total: on an input with no
uppercase-letter-plus-period sequence (trigger pattern absent), the source
calls `.forEach` on the `null` result of `match` and raises a TypeError
(modelled as `none`) instead of returning the input unchanged.  The other
three formatters do return the unmatched input unchanged. -/
theorem formatPunctuations_crashes_without_abbreviation :
    formatter.formatPunctuations "hi" = none ∧
    formatter.formatDialogIfIsDialog "hi" = "hi" ∧
    formatter.formatLyricsIfIsLyrics "hi" = "hi" ∧
    formatter.ccCleanup (some "hi") = some "hi" := by
  exact ⟨rfl, rfl, rfl, rfl⟩

/-- C5: the cleanup pass does not drop a record whose `ccCleanup` result is
null: the source filters on `line != null`, which tests the record object
(never null) rather than its cleaned text, so a credit-line record survives
with an absent primary text and the list length stays 2 instead of
decreasing to 1. -/
theorem cleanUpCcLines_keeps_credit_record :
    SubtitleList.cleanUpCcLines
        ⟨[⟨"1", "t1", some "Synced and corrected by srjanapala", none⟩,
          ⟨"2", "t2", some "hello", none⟩]⟩ =
      ⟨[⟨"1", "t1", none, none⟩, ⟨"2", "t2", some "hello", none⟩]⟩ := by
  exact rfl

/-- C6: substitution is not longest-key-first.  With full names inserted as
"Tony Stark" then "Tony", the one-argument sort comparator leaves the key
array in insertion order and the reverse makes "Tony" (the shorter key, a
proper substring of the longer one) be substituted first, so "Tony Stark" is
fragmented and the longer key never matches: the result is "托尼 Stark"
instead of the longest-first "托尼·斯塔克". -/
theorem translateNames_not_longest_first :
    formatter.translateNames "Tony Stark"
        ⟨[("Tony Stark", "托尼·斯塔克"), ("Tony", "托尼")], []⟩ = "托尼 Stark" := by
  exact rfl

/-- C7: organizing the raw dictionary with "Tony Stark" yields the claimed
full-name and partial-name tables; a mismatched entry (2 source tokens, 3
target segments) is absent from the partial table but kept in the full
table; and translating a text containing "Tony Stark" replaces the full
phrase before the standalone "Tony" elsewhere is replaced. -/
theorem organize_translate_tony_stark :
    formatter.organizeNameDict [("Tony Stark", "托尼·斯塔克")] =
      ⟨[("Tony Stark", "托尼·斯塔克")], [("Tony", "托尼"), ("Stark", "斯塔克")]⟩ ∧
    formatter.organizeNameDict [("Tony Stark", "托尼·斯·塔克")] =
      ⟨[("Tony Stark", "托尼·斯·塔克")], []⟩ ∧
    formatter.translateNames "Tony Stark met Tony"
        (formatter.organizeNameDict [("Tony Stark", "托尼·斯塔克")]) =
      "托尼·斯塔克 met 托尼" := by
  exact ⟨rfl, rfl, rfl⟩

/-- C8: the reformat pass is not idempotent for any input because it is not
even defined for most inputs: on a list with one record whose text is
"hello", the pass propagates the TypeError thrown by `formatPunctuations`
(no abbreviation pattern, `null.forEach`), so applying it once already fails
to produce record texts. -/
theorem reformat_crashes_plain_text :
    SubtitleList.reformat ⟨[⟨"1", "t", none, some "hello"⟩]⟩ = none := by
  exact rfl

/-- C9: after the translate pass, no record's secondary text is the empty
string: an empty resulting segment (and an out-of-range one) is stored as
the absent value. -/
theorem translate_pass_no_empty_secondary (sl : SubtitleList)
    (d : formatter.INameDict) (i : Nat) :
    ((sl.translateNames d).lines.getD i default).chs ≠ some "" := by
  have hL : (sl.translateNames d).lines =
      mapWithIndex (translateChsAssign (splitNlStr (formatter.translateNames
        (joinSep "\n" (sl.lines.map (fun l => l.chs.getD "")))
        (formatter.organizeNameDict d)))) 0 sl.lines := rfl
  rw [hL, mapWithIndex_getD_eq]
  split
  · dsimp only [translateChsAssign]
    split
    · rename_i hne
      intro hc
      exact hne (Option.some.inj hc)
    · intro hc
      exact Option.noConfusion hc
  · intro hc
    exact Option.noConfusion hc

/-- C10: the translate pass preserves the number and order of records and
leaves every record's index, timestamp and primary text unchanged; only the
secondary text is reassigned. -/
theorem translate_pass_frame (sl : SubtitleList) (d : formatter.INameDict) :
    (sl.translateNames d).lines.length = sl.lines.length ∧
    ∀ i : Nat,
      ((sl.translateNames d).lines.getD i default).index =
        (sl.lines.getD i default).index ∧
      ((sl.translateNames d).lines.getD i default).timestamp =
        (sl.lines.getD i default).timestamp ∧
      ((sl.translateNames d).lines.getD i default).eng =
        (sl.lines.getD i default).eng := by
  have hL : (sl.translateNames d).lines =
      mapWithIndex (translateChsAssign (splitNlStr (formatter.translateNames
        (joinSep "\n" (sl.lines.map (fun l => l.chs.getD "")))
        (formatter.organizeNameDict d)))) 0 sl.lines := rfl
  constructor
  · rw [hL]
    exact mapWithIndex_length _ 0 sl.lines
  · intro i
    rw [hL, mapWithIndex_getD_eq]
    split
    · dsimp only [translateChsAssign]
      exact ⟨rfl, rfl, rfl⟩
    · rename_i hge
      rw [List.getD_eq_default]
      · exact ⟨rfl, rfl, rfl⟩
      · omega
